import Mathlib

/-!
Shallow embedding of the single-file C++ ray tracer (src/raytracer.cpp)
over the real numbers, together with theorems settling the specification
claims about it.  Vectors are triples of reals; the C++ `double` arithmetic
is modelled by exact real arithmetic.  `std::optional`-style results
(sentinel `-1` / `+infinity` in the C++ loop state) are modelled by
`Option`.
-/

open scoped Classical

/-- `Vec3` from the source: a triple of real components, used as point,
direction and RGB color alike. -/
@[ext] structure Vec3 where
  x : ℝ
  y : ℝ
  z : ℝ

namespace Vec3

/-- `operator+` (componentwise). -/
def add (v w : Vec3) : Vec3 := ⟨v.x + w.x, v.y + w.y, v.z + w.z⟩

/-- `operator-` (componentwise). -/
def sub (v w : Vec3) : Vec3 := ⟨v.x - w.x, v.y - w.y, v.z - w.z⟩

/-- `operator*(double)` — scaling by a scalar. -/
def smul (v : Vec3) (t : ℝ) : Vec3 := ⟨v.x * t, v.y * t, v.z * t⟩

/-- `operator/(double)` — componentwise division by a scalar. -/
noncomputable def divs (v : Vec3) (t : ℝ) : Vec3 := ⟨v.x / t, v.y / t, v.z / t⟩

/-- `operator*(const Vec3&)` — componentwise (color) multiplication. -/
def cmul (v w : Vec3) : Vec3 := ⟨v.x * w.x, v.y * w.y, v.z * w.z⟩

theorem add_assoc' (a b c : Vec3) : add (add a b) c = add a (add b c) := by
  cases a; cases b; cases c
  simp only [add, mk.injEq]
  refine ⟨by ring, by ring, by ring⟩

theorem add_comm' (a b : Vec3) : add a b = add b a := by
  cases a; cases b
  simp only [add, mk.injEq]
  refine ⟨by ring, by ring, by ring⟩

theorem zero_add' (a : Vec3) : add ⟨0, 0, 0⟩ a = a := by
  cases a
  simp only [add, mk.injEq]
  refine ⟨by ring, by ring, by ring⟩

theorem add_zero' (a : Vec3) : add a ⟨0, 0, 0⟩ = a := by
  cases a
  simp only [add, mk.injEq]
  refine ⟨by ring, by ring, by ring⟩

instance : AddCommMonoid Vec3 where
  add := add
  zero := ⟨0, 0, 0⟩
  add_assoc := add_assoc'
  zero_add := zero_add'
  add_zero := add_zero'
  add_comm := add_comm'
  nsmul := fun n v => ⟨n * v.x, n * v.y, n * v.z⟩
  nsmul_zero := fun v => by
    show (⟨(0 : ℕ) * v.x, (0 : ℕ) * v.y, (0 : ℕ) * v.z⟩ : Vec3) = ⟨0, 0, 0⟩
    simp
  nsmul_succ := fun n v => by
    show (⟨(n + 1 : ℕ) * v.x, (n + 1 : ℕ) * v.y, (n + 1 : ℕ) * v.z⟩ : Vec3)
      = add ⟨n * v.x, n * v.y, n * v.z⟩ v
    simp only [add, mk.injEq]
    push_cast
    refine ⟨by ring, by ring, by ring⟩

instance : Sub Vec3 := ⟨sub⟩

instance : Mul Vec3 := ⟨cmul⟩

instance : HMul Vec3 ℝ Vec3 := ⟨smul⟩

noncomputable instance : HDiv Vec3 ℝ Vec3 := ⟨divs⟩

@[simp] theorem add_mk (a b c d e f : ℝ) :
    (⟨a, b, c⟩ : Vec3) + ⟨d, e, f⟩ = ⟨a + d, b + e, c + f⟩ := rfl

@[simp] theorem sub_mk (a b c d e f : ℝ) :
    (⟨a, b, c⟩ : Vec3) - ⟨d, e, f⟩ = ⟨a - d, b - e, c - f⟩ := rfl

@[simp] theorem cmul_mk (a b c d e f : ℝ) :
    (⟨a, b, c⟩ : Vec3) * ⟨d, e, f⟩ = ⟨a * d, b * e, c * f⟩ := rfl

@[simp] theorem smul_mk (a b c t : ℝ) :
    (⟨a, b, c⟩ : Vec3) * t = (⟨a * t, b * t, c * t⟩ : Vec3) := rfl

@[simp] theorem divs_mk (a b c t : ℝ) :
    (⟨a, b, c⟩ : Vec3) / t = (⟨a / t, b / t, c / t⟩ : Vec3) := rfl

@[simp] theorem zero_def : (0 : Vec3) = ⟨0, 0, 0⟩ := rfl

/-- `dot` from the source. -/
def dot (v w : Vec3) : ℝ := v.x * w.x + v.y * w.y + v.z * w.z

@[simp] theorem dot_mk (a b c d e f : ℝ) :
    dot ⟨a, b, c⟩ ⟨d, e, f⟩ = a * d + b * e + c * f := rfl

/-- `length` from the source: the Euclidean norm. -/
noncomputable def length (v : Vec3) : ℝ :=
  Real.sqrt (v.x * v.x + v.y * v.y + v.z * v.z)

theorem length_mk (a b c : ℝ) :
    length ⟨a, b, c⟩ = Real.sqrt (a * a + b * b + c * c) := rfl

/-- `normalize` from the source: divide by the length when it is positive,
return the zero vector otherwise. -/
noncomputable def normalize (v : Vec3) : Vec3 :=
  if 0 < v.length then v / v.length else ⟨0, 0, 0⟩

/-- The cross product, written out componentwise inline in the C++
`Camera::getRay`; named here for the camera-basis theorem. -/
def cross (a b : Vec3) : Vec3 :=
  ⟨a.y * b.z - a.z * b.y, a.z * b.x - a.x * b.z, a.x * b.y - a.y * b.x⟩

theorem length_nonneg (v : Vec3) : 0 ≤ v.length := Real.sqrt_nonneg _

theorem length_eq_zero_iff (v : Vec3) : v.length = 0 ↔ v = ⟨0, 0, 0⟩ := by
  cases v with
  | mk a b c =>
    rw [length_mk]
    constructor
    · intro h
      have hnn : 0 ≤ a * a + b * b + c * c := by
        nlinarith [mul_self_nonneg a, mul_self_nonneg b, mul_self_nonneg c]
      have hs : a * a + b * b + c * c = 0 := by
        have := Real.sqrt_eq_zero hnn |>.mp h
        exact this
      have ha : a = 0 := by nlinarith [mul_self_nonneg a, mul_self_nonneg b, mul_self_nonneg c]
      have hb : b = 0 := by nlinarith [mul_self_nonneg a, mul_self_nonneg b, mul_self_nonneg c]
      have hc : c = 0 := by nlinarith [mul_self_nonneg a, mul_self_nonneg b, mul_self_nonneg c]
      simp [ha, hb, hc]
    · intro h
      injection h with h1 h2 h3
      subst h1; subst h2; subst h3
      simp [Real.sqrt_eq_zero]

theorem length_pos_of_ne_zero {v : Vec3} (h : v ≠ ⟨0, 0, 0⟩) : 0 < v.length := by
  rcases lt_or_eq_of_le (length_nonneg v) with hlt | heq
  · exact hlt
  · exact absurd ((length_eq_zero_iff v).mp heq.symm) h

theorem length_divs (v : Vec3) {t : ℝ} (ht : 0 < t) :
    (v / t).length = v.length / t := by
  cases v with
  | mk a b c =>
    show length ⟨a / t, b / t, c / t⟩ = length ⟨a, b, c⟩ / t
    rw [length_mk, length_mk]
    have key : a / t * (a / t) + b / t * (b / t) + c / t * (c / t)
        = (a * a + b * b + c * c) / (t * t) := by
      field_simp
    have hS : 0 ≤ a * a + b * b + c * c := by
      nlinarith [mul_self_nonneg a, mul_self_nonneg b, mul_self_nonneg c]
    rw [key, Real.sqrt_div hS (t * t), Real.sqrt_mul_self ht.le]

theorem length_normalize {v : Vec3} (h : 0 < v.length) :
    v.normalize.length = 1 := by
  rw [normalize, if_pos h, length_divs v h, div_self h.ne']

theorem normalize_idem (v : Vec3) : v.normalize.normalize = v.normalize := by
  by_cases h : 0 < v.length
  · have h1 : v.normalize.length = 1 := length_normalize h
    rw [normalize, h1, if_pos one_pos]
    cases hn : v.normalize with
    | mk a b c => simp
  · have h0 : v.normalize = ⟨0, 0, 0⟩ := by rw [normalize, if_neg h]
    rw [h0, normalize, if_neg (by rw [length_mk]; norm_num)]

end Vec3

/-- `Ray` from the source: origin plus direction. -/
structure Ray where
  origin : Vec3
  direction : Vec3

/-- The `Ray` constructor: it normalizes the direction it is given. -/
noncomputable def mkRay (origin direction : Vec3) : Ray :=
  ⟨origin, direction.normalize⟩

/-- `Ray::at`: `origin + direction * t`. -/
def Ray.pointAt (r : Ray) (t : ℝ) : Vec3 := r.origin + r.direction * t

/-- `Material` from the source. -/
structure Material where
  color : Vec3

/-- `Sphere` from the source. -/
structure Sphere where
  center : Vec3
  radius : ℝ
  material : Material

/-- `Light` from the source. -/
structure Light where
  position : Vec3
  color : Vec3
  intensity : ℝ

namespace Sphere

/-- `oc = ray.origin - center` in `Sphere::intersect`. -/
def oc (s : Sphere) (ray : Ray) : Vec3 := ray.origin - s.center

/-- Coefficient `a = D · D` of the intersection quadratic. -/
def qa (s : Sphere) (ray : Ray) : ℝ := ray.direction.dot ray.direction

/-- Coefficient `b = 2 (O-C) · D` of the intersection quadratic. -/
def qb (s : Sphere) (ray : Ray) : ℝ := 2 * (s.oc ray).dot ray.direction

/-- Coefficient `c = |O-C|² - r²` of the intersection quadratic. -/
def qc (s : Sphere) (ray : Ray) : ℝ :=
  (s.oc ray).dot (s.oc ray) - s.radius * s.radius

/-- The discriminant `b² - 4ac`. -/
def disc (s : Sphere) (ray : Ray) : ℝ :=
  s.qb ray * s.qb ray - 4 * s.qa ray * s.qc ray

/-- The root taking the minus sign: `(-b - √disc) / (2a)`. -/
noncomputable def t0 (s : Sphere) (ray : Ray) : ℝ :=
  (-s.qb ray - Real.sqrt (s.disc ray)) / (2 * s.qa ray)

/-- The root taking the plus sign: `(-b + √disc) / (2a)`. -/
noncomputable def t1 (s : Sphere) (ray : Ray) : ℝ :=
  (-s.qb ray + Real.sqrt (s.disc ray)) / (2 * s.qa ray)

end Sphere

/-- An upper bound that may be `+infinity` (the C++ default argument
`tMax = std::numeric_limits<double>::infinity()`), modelled as `Option ℝ`
with `none` standing for `+infinity`. -/
def withinMax (t : ℝ) : Option ℝ → Prop
  | none => True
  | some m => t ≤ m

@[simp] theorem withinMax_none (t : ℝ) : withinMax t none := trivial

@[simp] theorem withinMax_some (t m : ℝ) : withinMax t (some m) ↔ t ≤ m :=
  Iff.rfl

/-- `Sphere::intersect`: solve the quadratic; miss on a negative
discriminant; otherwise return `t0` if it lies in `[tMin, tMax]`, else `t1`
if it lies in `[tMin, tMax]`, else miss. -/
noncomputable def Sphere.intersect (s : Sphere) (ray : Ray) (tMin : ℝ)
    (tMax : Option ℝ) : Option ℝ :=
  if s.disc ray < 0 then none
  else if tMin ≤ s.t0 ray ∧ withinMax (s.t0 ray) tMax then some (s.t0 ray)
  else if tMin ≤ s.t1 ray ∧ withinMax (s.t1 ray) tMax then some (s.t1 ray)
  else none

/-- `Sphere::getNormal`: `(point - center).normalize()`. -/
noncomputable def Sphere.getNormal (s : Sphere) (point : Vec3) : Vec3 :=
  (point - s.center).normalize

/-- `Scene` from the source: ordered spheres, ordered lights, ambient. -/
structure Scene where
  spheres : List Sphere
  lights : List Light
  ambientLight : Vec3

/-- The loop body state of `Scene::intersect`: the C++ pair
`(tClosest = +infinity, sphereIndex = -1)` is `none`; a current best hit
`(tClosest, sphereIndex)` is `some (t, i)`. -/
noncomputable def sceneIntersectAux (ray : Ray) (tMin : ℝ) :
    List Sphere → ℕ → Option (ℝ × ℕ) → Option (ℝ × ℕ)
  | [], _, best => best
  | s :: rest, i, best =>
    match s.intersect ray tMin (Option.map Prod.fst best) with
    | some t => sceneIntersectAux ray tMin rest (i + 1) (some (t, i))
    | none => sceneIntersectAux ray tMin rest (i + 1) best

/-- `Scene::intersect`: iterate over the spheres in order, each sphere
tested with `tMax` equal to the current closest distance. -/
noncomputable def Scene.intersect (sc : Scene) (ray : Ray) (tMin : ℝ) :
    Option (ℝ × ℕ) :=
  sceneIntersectAux ray tMin sc.spheres 0 none

/-- `Scene::isInShadow`: cast a ray from the point toward the light and
report whether the scene intersects it strictly closer than the light. -/
noncomputable def Scene.isInShadow (sc : Scene) (point lightPos : Vec3) :
    Prop :=
  match sc.intersect (mkRay point (lightPos - point)) (1 / 1000) with
  | some (t, _) => t < (lightPos - point).length
  | none => False

/-- `Camera` from the source. -/
structure Camera where
  position : Vec3
  lookAt : Vec3
  up : Vec3
  fov : ℝ

/-- `Camera::getRay`: derive the basis (the cross products written out
componentwise, as in the source), map the pixel to NDC, and build the ray
through the `Ray` constructor. -/
noncomputable def Camera.getRay (cam : Camera) (u v : ℝ)
    (width height : ℕ) : Ray :=
  let forward := (cam.lookAt - cam.position).normalize
  let right := (Vec3.mk (forward.y * cam.up.z - forward.z * cam.up.y)
                        (forward.z * cam.up.x - forward.x * cam.up.z)
                        (forward.x * cam.up.y - forward.y * cam.up.x)).normalize
  let upVec := Vec3.mk (right.y * forward.z - right.z * forward.y)
                       (right.z * forward.x - right.x * forward.z)
                       (right.x * forward.y - right.y * forward.x)
  let aspectRatio := (width : ℝ) / (height : ℝ)
  let scale := Real.tan (cam.fov * (1 / 2) * Real.pi / 180)
  let x := (2 * u / (width : ℝ) - 1) * aspectRatio * scale
  let y := (1 - 2 * v / (height : ℝ)) * scale
  mkRay cam.position ((forward + right * x + upVec * y).normalize)

/-- The default-constructed `Material` has color `(1,1,1)`; used to give
`std::vector` indexing a total model. -/
def dfltSphere : Sphere := ⟨⟨0, 0, 0⟩, 0, ⟨⟨1, 1, 1⟩⟩⟩

/-- The fixed sky-blue background color `Vec3(0.5, 0.7, 1.0)`. -/
noncomputable def backgroundColor : Vec3 := ⟨1 / 2, 7 / 10, 1⟩

/-- Per-pixel body of `Renderer::renderDistance`. -/
noncomputable def renderDistancePixel (camera : Camera) (scene : Scene)
    (x y : ℕ) (width height : ℕ) : Vec3 :=
  let ray := camera.getRay x y width height
  match scene.intersect ray (1 / 1000) with
  | some (t, _) =>
    let d := 1 - min 1 (t / 20)
    ⟨d, d, d⟩
  | none => backgroundColor

/-- Per-pixel body of `Renderer::renderMaterials`. -/
noncomputable def renderMaterialsPixel (camera : Camera) (scene : Scene)
    (x y : ℕ) (width height : ℕ) : Vec3 :=
  let ray := camera.getRay x y width height
  match scene.intersect ray (1 / 1000) with
  | some (_, i) => (scene.spheres.getD i dfltSphere).material.color
  | none => backgroundColor

/-- Per-pixel body of `Renderer::renderDiffuse`. -/
noncomputable def renderDiffusePixel (camera : Camera) (scene : Scene)
    (x y : ℕ) (width height : ℕ) : Vec3 :=
  let ray := camera.getRay x y width height
  match scene.intersect ray (1 / 1000) with
  | some (t, i) =>
    let hitPoint := ray.pointAt t
    let sph := scene.spheres.getD i dfltSphere
    let normal := sph.getNormal hitPoint
    let materialColor := sph.material.color
    scene.lights.foldl
      (fun acc light =>
        acc + materialColor * light.color *
          (max 0 (normal.dot ((light.position - hitPoint).normalize)) *
            light.intensity))
      (scene.ambientLight * materialColor)
  | none => backgroundColor

/-- Per-pixel body of `Renderer::renderWithShadows`. -/
noncomputable def renderWithShadowsPixel (camera : Camera) (scene : Scene)
    (x y : ℕ) (width height : ℕ) : Vec3 :=
  let ray := camera.getRay x y width height
  match scene.intersect ray (1 / 1000) with
  | some (t, i) =>
    let hitPoint := ray.pointAt t
    let sph := scene.spheres.getD i dfltSphere
    let normal := sph.getNormal hitPoint
    let materialColor := sph.material.color
    scene.lights.foldl
      (fun acc light =>
        if scene.isInShadow hitPoint light.position then acc
        else
          acc + materialColor * light.color *
            (max 0 (normal.dot ((light.position - hitPoint).normalize)) *
              light.intensity))
      (scene.ambientLight * materialColor)
  | none => backgroundColor

/-! ## Properties of the sphere intersection routine -/

namespace Sphere

theorem qa_nonneg (s : Sphere) (ray : Ray) : 0 ≤ s.qa ray := by
  unfold qa Vec3.dot
  nlinarith [mul_self_nonneg ray.direction.x, mul_self_nonneg ray.direction.y,
    mul_self_nonneg ray.direction.z]

theorem t0_le_t1 (s : Sphere) (ray : Ray) : s.t0 ray ≤ s.t1 ray := by
  rcases (s.qa_nonneg ray).lt_or_eq with h | h
  · unfold t0 t1
    have h2 : (0 : ℝ) < 2 * s.qa ray := by linarith
    rw [div_le_div_iff h2 h2]
    nlinarith [Real.sqrt_nonneg (s.disc ray)]
  · unfold t0 t1
    simp [← h]

theorem intersect_some_bounds {s : Sphere} {ray : Ray} {tMin : ℝ}
    {tMax : Option ℝ} {u : ℝ} (h : s.intersect ray tMin tMax = some u) :
    tMin ≤ u ∧ withinMax u tMax := by
  unfold intersect at h
  split_ifs at h with hd h0 h1
  · rcases Option.some.inj h with rfl
    exact h0
  · rcases Option.some.inj h with rfl
    exact h1

/-- Bounding the sphere test by a finite `tMax` is a pure filter: it
returns exactly the unbounded result when that result is at most `tMax`,
and a miss otherwise. -/
theorem intersect_prune (s : Sphere) (ray : Ray) (tMin T u : ℝ) :
    s.intersect ray tMin (some T) = some u ↔
      s.intersect ray tMin none = some u ∧ u ≤ T := by
  have hle := s.t0_le_t1 ray
  unfold intersect
  by_cases hd : s.disc ray < 0
  · simp [hd]
  by_cases h0 : tMin ≤ s.t0 ray
  · have hp0N : tMin ≤ s.t0 ray ∧ withinMax (s.t0 ray) none := ⟨h0, trivial⟩
    by_cases h0T : s.t0 ray ≤ T
    · have hp0T : tMin ≤ s.t0 ray ∧ withinMax (s.t0 ray) (some T) := ⟨h0, h0T⟩
      rw [if_neg hd, if_neg hd, if_pos hp0T, if_pos hp0N]
      constructor
      · intro h
        refine ⟨h, ?_⟩
        rcases Option.some.inj h with rfl
        exact h0T
      · exact fun h => h.1
    · have hn0 : ¬(tMin ≤ s.t0 ray ∧ withinMax (s.t0 ray) (some T)) :=
        fun hc => h0T hc.2
      have hn1 : ¬(tMin ≤ s.t1 ray ∧ withinMax (s.t1 ray) (some T)) :=
        fun hc => h0T (le_trans hle hc.2)
      rw [if_neg hd, if_neg hd, if_neg hn0, if_neg hn1, if_pos hp0N]
      constructor
      · intro h
        exact absurd h (by simp)
      · rintro ⟨h, hT⟩
        rcases Option.some.inj h with rfl
        exact absurd hT h0T
  · have hn0T : ¬(tMin ≤ s.t0 ray ∧ withinMax (s.t0 ray) (some T)) :=
      fun hc => h0 hc.1
    have hn0N : ¬(tMin ≤ s.t0 ray ∧ withinMax (s.t0 ray) none) :=
      fun hc => h0 hc.1
    by_cases h1 : tMin ≤ s.t1 ray
    · have hp1N : tMin ≤ s.t1 ray ∧ withinMax (s.t1 ray) none := ⟨h1, trivial⟩
      by_cases h1T : s.t1 ray ≤ T
      · have hp1T : tMin ≤ s.t1 ray ∧ withinMax (s.t1 ray) (some T) := ⟨h1, h1T⟩
        rw [if_neg hd, if_neg hd, if_neg hn0T, if_neg hn0N, if_pos hp1T,
          if_pos hp1N]
        constructor
        · intro h
          refine ⟨h, ?_⟩
          rcases Option.some.inj h with rfl
          exact h1T
        · exact fun h => h.1
      · have hn1T : ¬(tMin ≤ s.t1 ray ∧ withinMax (s.t1 ray) (some T)) :=
          fun hc => h1T hc.2
        rw [if_neg hd, if_neg hd, if_neg hn0T, if_neg hn0N, if_neg hn1T,
          if_pos hp1N]
        constructor
        · intro h
          exact absurd h (by simp)
        · rintro ⟨h, hT⟩
          rcases Option.some.inj h with rfl
          exact absurd hT h1T
    · have hn1T : ¬(tMin ≤ s.t1 ray ∧ withinMax (s.t1 ray) (some T)) :=
        fun hc => h1 hc.1
      have hn1N : ¬(tMin ≤ s.t1 ray ∧ withinMax (s.t1 ray) none) :=
        fun hc => h1 hc.1
      rw [if_neg hd, if_neg hd, if_neg hn0T, if_neg hn0N, if_neg hn1T,
        if_neg hn1N]
      simp

end Sphere

/-! ## Characterizing the scene closest-hit loop -/

theorem getD_append_lt {α : Type} (l : List α) (a d : α) :
    ∀ j, j < l.length → (l ++ [a]).getD j d = l.getD j d := by
  induction l with
  | nil =>
    intro j h
    exact absurd h (Nat.not_lt_zero j)
  | cons b l ih =>
    intro j h
    cases j with
    | zero => rfl
    | succ j => exact ih j (Nat.lt_of_succ_lt_succ h)

theorem getD_append_len {α : Type} (l : List α) (a d : α) :
    (l ++ [a]).getD l.length d = a := by
  induction l with
  | nil => rfl
  | cons b l ih => exact ih

/-- What it means for a loop result to be the closest hit over the list
`l`: `none` means every sphere misses; `some (t, i)` means sphere `i` hits
at distance `t`, no sphere hits strictly closer, and every *later* sphere
that hits does so strictly farther (an exact tie is taken over by the
later sphere, so the recorded index is the last one attaining `t`). -/
def SceneClosest (ray : Ray) (tMin : ℝ) (l : List Sphere) :
    Option (ℝ × ℕ) → Prop
  | none => ∀ j, j < l.length →
      (l.getD j dfltSphere).intersect ray tMin none = none
  | some (t, i) =>
      i < l.length ∧
      (l.getD i dfltSphere).intersect ray tMin none = some t ∧
      (∀ j, j < l.length → ∀ u,
        (l.getD j dfltSphere).intersect ray tMin none = some u → t ≤ u) ∧
      (∀ j, i < j → j < l.length → ∀ u,
        (l.getD j dfltSphere).intersect ray tMin none = some u → t < u)

theorem sceneClosest_none (ray : Ray) (tMin : ℝ) (l : List Sphere) :
    SceneClosest ray tMin l none ↔
      ∀ j, j < l.length →
        (l.getD j dfltSphere).intersect ray tMin none = none :=
  Iff.rfl

theorem sceneClosest_some (ray : Ray) (tMin : ℝ) (l : List Sphere)
    (t : ℝ) (i : ℕ) :
    SceneClosest ray tMin l (some (t, i)) ↔
      (i < l.length ∧
        (l.getD i dfltSphere).intersect ray tMin none = some t ∧
        (∀ j, j < l.length → ∀ u,
          (l.getD j dfltSphere).intersect ray tMin none = some u → t ≤ u) ∧
        (∀ j, i < j → j < l.length → ∀ u,
          (l.getD j dfltSphere).intersect ray tMin none = some u → t < u)) :=
  Iff.rfl

theorem sceneIntersectAux_append (ray : Ray) (tMin : ℝ) (l : List Sphere)
    (s : Sphere) :
    ∀ (i : ℕ) (best : Option (ℝ × ℕ)),
    sceneIntersectAux ray tMin (l ++ [s]) i best =
      (match s.intersect ray tMin
          (Option.map Prod.fst (sceneIntersectAux ray tMin l i best)) with
        | some t => some (t, i + l.length)
        | none => sceneIntersectAux ray tMin l i best) := by
  induction l with
  | nil =>
    intro i best
    cases hs : s.intersect ray tMin (Option.map Prod.fst best) with
    | some t => simp [sceneIntersectAux, hs]
    | none => simp [sceneIntersectAux, hs]
  | cons b l ih =>
    intro i best
    rw [List.cons_append]
    have hred : sceneIntersectAux ray tMin (b :: l) i best
        = (match b.intersect ray tMin (Option.map Prod.fst best) with
           | some t => sceneIntersectAux ray tMin l (i + 1) (some (t, i))
           | none => sceneIntersectAux ray tMin l (i + 1) best) := rfl
    have hredapp : sceneIntersectAux ray tMin (b :: (l ++ [s])) i best
        = (match b.intersect ray tMin (Option.map Prod.fst best) with
           | some t => sceneIntersectAux ray tMin (l ++ [s]) (i + 1) (some (t, i))
           | none => sceneIntersectAux ray tMin (l ++ [s]) (i + 1) best) := rfl
    rw [hredapp, hred]
    have hlen : i + 1 + l.length = i + (b :: l).length := by
      rw [List.length_cons]
      omega
    cases hb : b.intersect ray tMin (Option.map Prod.fst best) with
    | some t =>
      dsimp only
      rw [ih (i + 1) (some (t, i))]
      simp only [hlen]
    | none =>
      dsimp only
      rw [ih (i + 1) best]
      simp only [hlen]

theorem sceneAux_closest (ray : Ray) (tMin : ℝ) (l : List Sphere) :
    SceneClosest ray tMin l (sceneIntersectAux ray tMin l 0 none) := by
  induction l using List.reverseRecOn with
  | nil =>
    rw [show sceneIntersectAux ray tMin [] 0 none = none from rfl,
      sceneClosest_none]
    intro j hj
    exact absurd hj (Nat.not_lt_zero j)
  | append_singleton l s ih =>
    rw [sceneIntersectAux_append]
    cases hR : sceneIntersectAux ray tMin l 0 none with
    | none =>
      rw [hR] at ih
      rw [sceneClosest_none] at ih
      dsimp only [Option.map]
      cases hs : s.intersect ray tMin none with
      | none =>
        dsimp only
        rw [sceneClosest_none]
        intro j hj
        by_cases hjl : j < l.length
        · rw [getD_append_lt l s dfltSphere j hjl]
          exact ih j hjl
        · have hjlen : j = l.length := by
            simp only [List.length_append, List.length_cons,
              List.length_nil] at hj
            omega
          subst hjlen
          rw [getD_append_len]
          exact hs
      | some u =>
        dsimp only
        rw [Nat.zero_add, sceneClosest_some]
        refine ⟨by simp, ?_, ?_, ?_⟩
        · rw [getD_append_len]
          exact hs
        · intro j hj w hw
          by_cases hjl : j < l.length
          · rw [getD_append_lt l s dfltSphere j hjl] at hw
            rw [ih j hjl] at hw
            exact absurd hw (by simp)
          · have hjlen : j = l.length := by
              simp only [List.length_append, List.length_cons,
                List.length_nil] at hj
              omega
            subst hjlen
            rw [getD_append_len] at hw
            rw [hs] at hw
            rcases Option.some.inj hw with rfl
            exact le_refl u
        · intro j hlt hj w hw
          have : False := by
            simp only [List.length_append, List.length_cons,
              List.length_nil] at hj
            omega
          exact absurd this (by simp)
    | some p =>
      obtain ⟨t, i⟩ := p
      rw [hR] at ih
      rw [sceneClosest_some] at ih
      obtain ⟨hi, hhit, hmin, hlast⟩ := ih
      dsimp only [Option.map]
      cases hs : s.intersect ray tMin (some t) with
      | some u =>
        obtain ⟨hsu, hut⟩ := (Sphere.intersect_prune s ray tMin t u).mp hs
        dsimp only
        rw [Nat.zero_add, sceneClosest_some]
        refine ⟨by simp, ?_, ?_, ?_⟩
        · rw [getD_append_len]
          exact hsu
        · intro j hj w hw
          by_cases hjl : j < l.length
          · rw [getD_append_lt l s dfltSphere j hjl] at hw
            exact le_trans hut (hmin j hjl w hw)
          · have hjlen : j = l.length := by
              simp only [List.length_append, List.length_cons,
                List.length_nil] at hj
              omega
            subst hjlen
            rw [getD_append_len] at hw
            rw [hsu] at hw
            rcases Option.some.inj hw with rfl
            exact le_refl u
        · intro j hlt hj w hw
          have : False := by
            simp only [List.length_append, List.length_cons,
              List.length_nil] at hj
            omega
          exact absurd this (by simp)
      | none =>
        have hkey : ∀ w, s.intersect ray tMin none = some w → t < w := by
          intro w hw
          by_contra hnot
          push_neg at hnot
          have hcontra : s.intersect ray tMin (some t) = some w :=
            (Sphere.intersect_prune s ray tMin t w).mpr ⟨hw, hnot⟩
          rw [hs] at hcontra
          exact absurd hcontra (by simp)
        dsimp only
        rw [sceneClosest_some]
        refine ⟨?_, ?_, ?_, ?_⟩
        · simp only [List.length_append, List.length_cons, List.length_nil]
          omega
        · rw [getD_append_lt l s dfltSphere i hi]
          exact hhit
        · intro j hj w hw
          by_cases hjl : j < l.length
          · rw [getD_append_lt l s dfltSphere j hjl] at hw
            exact hmin j hjl w hw
          · have hjlen : j = l.length := by
              simp only [List.length_append, List.length_cons,
                List.length_nil] at hj
              omega
            subst hjlen
            rw [getD_append_len] at hw
            exact le_of_lt (hkey w hw)
        · intro j hlt hj w hw
          by_cases hjl : j < l.length
          · rw [getD_append_lt l s dfltSphere j hjl] at hw
            exact hlast j hlt hjl w hw
          · have hjlen : j = l.length := by
              simp only [List.length_append, List.length_cons,
                List.length_nil] at hj
              omega
            subst hjlen
            rw [getD_append_len] at hw
            exact hkey w hw

/-- The closest-hit characterization, at the `Scene.intersect` level. -/
theorem scene_intersect_closest (sc : Scene) (ray : Ray) (tMin : ℝ) :
    SceneClosest ray tMin sc.spheres (sc.intersect ray tMin) :=
  sceneAux_closest ray tMin sc.spheres

theorem scene_intersect_none_iff (sc : Scene) (ray : Ray) (tMin : ℝ) :
    sc.intersect ray tMin = none ↔
      ∀ j, j < sc.spheres.length →
        (sc.spheres.getD j dfltSphere).intersect ray tMin none = none := by
  have h := scene_intersect_closest sc ray tMin
  constructor
  · intro hnone
    rw [hnone, sceneClosest_none] at h
    exact h
  · intro hall
    cases hres : sc.intersect ray tMin with
    | none => rfl
    | some p =>
      obtain ⟨t, i⟩ := p
      rw [hres, sceneClosest_some] at h
      obtain ⟨hi, hhit, _, _⟩ := h
      rw [hall i hi] at hhit
      exact absurd hhit (by simp)

theorem scene_intersect_some_spec {sc : Scene} {ray : Ray} {tMin t : ℝ}
    {i : ℕ} (h : sc.intersect ray tMin = some (t, i)) :
    i < sc.spheres.length ∧
    (sc.spheres.getD i dfltSphere).intersect ray tMin none = some t ∧
    (∀ j, j < sc.spheres.length → ∀ u,
      (sc.spheres.getD j dfltSphere).intersect ray tMin none = some u →
        t ≤ u) ∧
    (∀ j, i < j → j < sc.spheres.length → ∀ u,
      (sc.spheres.getD j dfltSphere).intersect ray tMin none = some u →
        t < u) := by
  have hspec := scene_intersect_closest sc ray tMin
  rw [h, sceneClosest_some] at hspec
  exact hspec

/-! ## The quadratic actually solved by `Sphere::intersect` -/

theorem Vec3.length_eq_sqrt_dot (v : Vec3) :
    v.length = Real.sqrt (v.dot v) := rfl

theorem Vec3.dot_self_nonneg (v : Vec3) : 0 ≤ v.dot v := by
  cases v with
  | mk a b c =>
    rw [Vec3.dot_mk]
    nlinarith [mul_self_nonneg a, mul_self_nonneg b, mul_self_nonneg c]

theorem qa_eq_one_of_unit {ray : Ray} (hD : ray.direction.length = 1)
    (s : Sphere) : s.qa ray = 1 := by
  show ray.direction.dot ray.direction = 1
  have h := hD
  rw [Vec3.length_eq_sqrt_dot] at h
  have h2 := congrArg (fun r : ℝ => r * r) h
  dsimp only at h2
  rw [Real.mul_self_sqrt (Vec3.dot_self_nonneg _)] at h2
  simpa using h2

/-- `|O + tD - C|²` expands to `a t² + b t + |O - C|²` with the loop's
coefficients. -/
theorem quad_eval (s : Sphere) (ray : Ray) (t : ℝ) :
    (ray.pointAt t - s.center).dot (ray.pointAt t - s.center)
      = s.qa ray * (t * t) + s.qb ray * t + (s.oc ray).dot (s.oc ray) := by
  obtain ⟨⟨ox, oy, oz⟩, ⟨dx, dy, dz⟩⟩ := ray
  obtain ⟨⟨cx, cy, cz⟩, r, m⟩ := s
  simp only [Ray.pointAt, Sphere.qa, Sphere.qb, Sphere.qc, Sphere.oc,
    Vec3.smul_mk, Vec3.add_mk, Vec3.sub_mk, Vec3.dot_mk]
  ring

/-- With a unit direction and a nonnegative discriminant, `t0` and `t1`
are genuine roots: the point at parameter `t0` (resp. `t1`) lies at
distance `radius` from the center. -/
theorem root_prop (s : Sphere) (ray : Ray) (ha : s.qa ray = 1)
    (hd : 0 ≤ s.disc ray) :
    (ray.pointAt (s.t0 ray) - s.center).dot (ray.pointAt (s.t0 ray) - s.center)
        = s.radius * s.radius ∧
    (ray.pointAt (s.t1 ray) - s.center).dot (ray.pointAt (s.t1 ray) - s.center)
        = s.radius * s.radius := by
  have hs2 : Real.sqrt (s.disc ray) * Real.sqrt (s.disc ray) = s.disc ray :=
    Real.mul_self_sqrt hd
  have hdisc : s.disc ray = s.qb ray * s.qb ray - 4 * s.qc ray := by
    unfold Sphere.disc
    rw [ha]
    ring
  have hqc : (s.oc ray).dot (s.oc ray) = s.qc ray + s.radius * s.radius := by
    unfold Sphere.qc
    ring
  constructor
  · rw [quad_eval, ha, hqc]
    unfold Sphere.t0
    rw [ha]
    linear_combination hs2 / 4 + hdisc / 4
  · rw [quad_eval, ha, hqc]
    unfold Sphere.t1
    rw [ha]
    linear_combination hs2 / 4 + hdisc / 4

/-! ## Fold helpers for the per-pixel light accumulation -/

theorem foldl_add_sum {β : Type} (f : β → Vec3) (l : List β) (init : Vec3) :
    l.foldl (fun acc b => acc + f b) init = init + (l.map f).sum := by
  induction l generalizing init with
  | nil => simp only [List.foldl_nil, List.map_nil, List.sum_nil, add_zero]
  | cons b l ih =>
    simp only [List.foldl_cons, List.map_cons, List.sum_cons]
    rw [ih (init + f b), add_assoc]

theorem foldl_congr_on {β : Type} (f g : Vec3 → β → Vec3) :
    ∀ (l : List β), (∀ b ∈ l, ∀ acc, f acc b = g acc b) →
      ∀ (init : Vec3), l.foldl f init = l.foldl g init := by
  intro l
  induction l with
  | nil =>
    intro _ _
    rfl
  | cons b l ih =>
    intro h init
    simp only [List.foldl_cons]
    rw [h b (List.mem_cons_self b l) init]
    exact ih (fun x hx acc => h x (List.mem_cons_of_mem b hx) acc) (g init b)

/-! ## Evaluation helpers for concrete witnesses -/

theorem sqrt_of_sq (a b : ℝ) (hb : 0 ≤ b) (h : b * b = a) :
    Real.sqrt a = b := by
  rw [← h]
  exact Real.sqrt_mul_self hb

@[simp] theorem Vec3.smul_zero' (v : Vec3) : v * (0 : ℝ) = (0 : Vec3) := by
  cases v with
  | mk a b c =>
    rw [Vec3.smul_mk, Vec3.zero_def]
    norm_num

theorem normalize_eval (a b c L : ℝ) (hL : 0 < L)
    (h : L * L = a * a + b * b + c * c) :
    (Vec3.mk a b c).normalize = ⟨a / L, b / L, c / L⟩ := by
  have hlen : (Vec3.mk a b c).length = L := by
    rw [Vec3.length_mk]
    exact sqrt_of_sq _ L hL.le h
  rw [Vec3.normalize, hlen, if_pos hL]
  rfl

theorem sphere_intersect_eval_t0 (s : Sphere) (ray : Ray) (tMin : ℝ)
    (tMax : Option ℝ) (hd : ¬s.disc ray < 0)
    (h0 : tMin ≤ s.t0 ray ∧ withinMax (s.t0 ray) tMax) :
    s.intersect ray tMin tMax = some (s.t0 ray) := by
  unfold Sphere.intersect
  rw [if_neg hd, if_pos h0]

theorem sphere_intersect_eval_none (s : Sphere) (ray : Ray) (tMin : ℝ)
    (tMax : Option ℝ) (hd : ¬s.disc ray < 0)
    (h0 : ¬(tMin ≤ s.t0 ray ∧ withinMax (s.t0 ray) tMax))
    (h1 : ¬(tMin ≤ s.t1 ray ∧ withinMax (s.t1 ray) tMax)) :
    s.intersect ray tMin tMax = none := by
  unfold Sphere.intersect
  rw [if_neg hd, if_neg h0, if_neg h1]

/-- A camera ray through the exact center of the image: both NDC
coordinates vanish, so the direction is just the normalized forward
vector, whatever the basis and field of view are. -/
theorem getRay_center (cam : Camera) (u v : ℝ) (width height : ℕ)
    (hx : 2 * u / (width : ℝ) - 1 = 0) (hy : 1 - 2 * v / (height : ℝ) = 0) :
    cam.getRay u v width height
      = ⟨cam.position, (cam.lookAt - cam.position).normalize⟩ := by
  unfold Camera.getRay mkRay
  dsimp only
  rw [hx, hy]
  simp only [zero_mul, Vec3.smul_zero', add_zero]
  rw [Vec3.normalize_idem, Vec3.normalize_idem]

/-! ## Concrete scenes used as witnesses and counterexamples -/

/-- A unit sphere at the origin with a pure red material. -/
noncomputable def sphereUnit : Sphere := ⟨⟨0, 0, 0⟩, 1, ⟨⟨1, 0, 0⟩⟩⟩

/-- A white light on the optical axis at `(0,0,5)` with intensity `0.8`. -/
noncomputable def lightW : Light := ⟨⟨0, 0, 5⟩, ⟨1, 1, 1⟩, 4 / 5⟩

/-- One sphere, one light, the default ambient. -/
noncomputable def sceneOne : Scene :=
  ⟨[sphereUnit], [lightW], ⟨1 / 10, 1 / 10, 1 / 10⟩⟩

/-- The same sphere added twice: every camera ray meets both at exactly
equal distances. -/
noncomputable def sceneTie : Scene :=
  ⟨[sphereUnit, sphereUnit], [], ⟨1 / 10, 1 / 10, 1 / 10⟩⟩

/-- A scene with no spheres at all. -/
noncomputable def sceneEmpty : Scene := ⟨[], [], ⟨1 / 10, 1 / 10, 1 / 10⟩⟩

/-- The camera of the driver: at `(0,0,5)` looking at the origin. -/
noncomputable def camW : Camera := ⟨⟨0, 0, 5⟩, ⟨0, 0, 0⟩, ⟨0, 1, 0⟩, 60⟩

/-- The ray from `(0,0,5)` straight down the negative z axis. -/
noncomputable def rayW : Ray := mkRay ⟨0, 0, 5⟩ ⟨0, 0, -1⟩

theorem rayW_eval : rayW = ⟨⟨0, 0, 5⟩, ⟨0, 0, -1⟩⟩ := by
  unfold rayW mkRay
  rw [normalize_eval 0 0 (-1) 1 one_pos (by norm_num)]
  norm_num

theorem sU_A_disc : sphereUnit.disc ⟨⟨0, 0, 5⟩, ⟨0, 0, -1⟩⟩ = 4 := by
  unfold Sphere.disc Sphere.qa Sphere.qb Sphere.qc Sphere.oc sphereUnit
  norm_num

theorem sU_A_t0 : sphereUnit.t0 ⟨⟨0, 0, 5⟩, ⟨0, 0, -1⟩⟩ = 4 := by
  unfold Sphere.t0
  rw [sU_A_disc, sqrt_of_sq 4 2 (by norm_num) (by norm_num)]
  unfold Sphere.qa Sphere.qb Sphere.oc sphereUnit
  norm_num

theorem sU_A_hit_inf :
    sphereUnit.intersect ⟨⟨0, 0, 5⟩, ⟨0, 0, -1⟩⟩ (1 / 1000) none = some 4 := by
  rw [sphere_intersect_eval_t0 sphereUnit ⟨⟨0, 0, 5⟩, ⟨0, 0, -1⟩⟩ (1 / 1000)
    none (by rw [sU_A_disc]; norm_num)
    ⟨by rw [sU_A_t0]; norm_num, withinMax_none _⟩]
  rw [sU_A_t0]

theorem sU_A_hit_bound :
    sphereUnit.intersect ⟨⟨0, 0, 5⟩, ⟨0, 0, -1⟩⟩ (1 / 1000) (some 4)
      = some 4 := by
  rw [sphere_intersect_eval_t0 _ _ _ _ (by rw [sU_A_disc]; norm_num)
    ⟨by rw [sU_A_t0]; norm_num, by rw [withinMax_some, sU_A_t0]⟩]
  rw [sU_A_t0]

theorem sU_B_disc : sphereUnit.disc ⟨⟨0, 0, 1⟩, ⟨0, 0, 1⟩⟩ = 4 := by
  unfold Sphere.disc Sphere.qa Sphere.qb Sphere.qc Sphere.oc sphereUnit
  norm_num

theorem sU_B_t0 : sphereUnit.t0 ⟨⟨0, 0, 1⟩, ⟨0, 0, 1⟩⟩ = -2 := by
  unfold Sphere.t0
  rw [sU_B_disc, sqrt_of_sq 4 2 (by norm_num) (by norm_num)]
  unfold Sphere.qa Sphere.qb Sphere.oc sphereUnit
  norm_num

theorem sU_B_t1 : sphereUnit.t1 ⟨⟨0, 0, 1⟩, ⟨0, 0, 1⟩⟩ = 0 := by
  unfold Sphere.t1
  rw [sU_B_disc, sqrt_of_sq 4 2 (by norm_num) (by norm_num)]
  unfold Sphere.qa Sphere.qb Sphere.oc sphereUnit
  norm_num

theorem sU_B_none :
    sphereUnit.intersect ⟨⟨0, 0, 1⟩, ⟨0, 0, 1⟩⟩ (1 / 1000) none = none := by
  apply sphere_intersect_eval_none
  · rw [sU_B_disc]
    norm_num
  · intro hc
    have h := hc.1
    rw [sU_B_t0] at h
    norm_num at h
  · intro hc
    have h := hc.1
    rw [sU_B_t1] at h
    norm_num at h

theorem sU_C_disc : sphereUnit.disc ⟨⟨0, 0, 3⟩, ⟨0, 0, -1⟩⟩ = 4 := by
  unfold Sphere.disc Sphere.qa Sphere.qb Sphere.qc Sphere.oc sphereUnit
  norm_num

theorem sU_C_t0 : sphereUnit.t0 ⟨⟨0, 0, 3⟩, ⟨0, 0, -1⟩⟩ = 2 := by
  unfold Sphere.t0
  rw [sU_C_disc, sqrt_of_sq 4 2 (by norm_num) (by norm_num)]
  unfold Sphere.qa Sphere.qb Sphere.oc sphereUnit
  norm_num

theorem sU_C_hit :
    sphereUnit.intersect ⟨⟨0, 0, 3⟩, ⟨0, 0, -1⟩⟩ (1 / 1000) none = some 2 := by
  rw [sphere_intersect_eval_t0 sphereUnit ⟨⟨0, 0, 3⟩, ⟨0, 0, -1⟩⟩ (1 / 1000)
    none (by rw [sU_C_disc]; norm_num)
    ⟨by rw [sU_C_t0]; norm_num, withinMax_none _⟩]
  rw [sU_C_t0]

theorem sceneOne_hit :
    sceneOne.intersect ⟨⟨0, 0, 5⟩, ⟨0, 0, -1⟩⟩ (1 / 1000) = some (4, 0) := by
  unfold Scene.intersect sceneOne
  simp only [sceneIntersectAux, Option.map_none', sU_A_hit_inf]

theorem sceneTie_hit :
    sceneTie.intersect ⟨⟨0, 0, 5⟩, ⟨0, 0, -1⟩⟩ (1 / 1000) = some (4, 1) := by
  unfold Scene.intersect sceneTie
  simp only [sceneIntersectAux, Option.map_none', Option.map_some',
    sU_A_hit_inf, sU_A_hit_bound]

theorem sceneOne_shadow_none :
    sceneOne.intersect ⟨⟨0, 0, 1⟩, ⟨0, 0, 1⟩⟩ (1 / 1000) = none := by
  unfold Scene.intersect sceneOne
  simp only [sceneIntersectAux, Option.map_none', sU_B_none]

theorem sceneOne_hit2 :
    sceneOne.intersect ⟨⟨0, 0, 3⟩, ⟨0, 0, -1⟩⟩ (1 / 1000) = some (2, 0) := by
  unfold Scene.intersect sceneOne
  simp only [sceneIntersectAux, Option.map_none', sU_C_hit]

theorem mkRay_shadow1 :
    mkRay ⟨0, 0, 1⟩ ((⟨0, 0, 5⟩ : Vec3) - ⟨0, 0, 1⟩) = ⟨⟨0, 0, 1⟩, ⟨0, 0, 1⟩⟩ := by
  unfold mkRay
  rw [Vec3.sub_mk]
  norm_num
  rw [normalize_eval 0 0 4 4 (by norm_num) (by norm_num)]
  norm_num

theorem mkRay_shadow2 :
    mkRay ⟨0, 0, 3⟩ ((⟨0, 0, -3⟩ : Vec3) - ⟨0, 0, 3⟩)
      = ⟨⟨0, 0, 3⟩, ⟨0, 0, -1⟩⟩ := by
  unfold mkRay
  rw [Vec3.sub_mk]
  norm_num
  rw [normalize_eval 0 0 (-6) 6 (by norm_num) (by norm_num)]
  norm_num

theorem notInShadow1 : ¬sceneOne.isInShadow ⟨0, 0, 1⟩ ⟨0, 0, 5⟩ := by
  unfold Scene.isInShadow
  rw [mkRay_shadow1, sceneOne_shadow_none]
  simp

theorem camW_ray : camW.getRay 1 1 2 2 = ⟨⟨0, 0, 5⟩, ⟨0, 0, -1⟩⟩ := by
  rw [getRay_center camW 1 1 2 2 (by norm_num) (by norm_num)]
  unfold camW
  dsimp only
  rw [Vec3.sub_mk]
  norm_num
  rw [normalize_eval 0 0 (-5) 5 (by norm_num) (by norm_num)]
  norm_num

theorem pointAt_eval : (⟨⟨0, 0, 5⟩, ⟨0, 0, -1⟩⟩ : Ray).pointAt 4 = ⟨0, 0, 1⟩ := by
  unfold Ray.pointAt
  norm_num

theorem length_eval (a b c L : ℝ) (hL : 0 ≤ L)
    (h : L * L = a * a + b * b + c * c) : (Vec3.mk a b c).length = L := by
  rw [Vec3.length_mk]
  exact sqrt_of_sq _ L hL h

theorem foldl_if_add {β : Type} (P : β → Prop) (f : β → Vec3) (l : List β)
    (init : Vec3) :
    l.foldl (fun acc b => if P b then acc else acc + f b) init
      = init + (l.map (fun b => if P b then 0 else f b)).sum := by
  induction l generalizing init with
  | nil => simp only [List.foldl_nil, List.map_nil, List.sum_nil, add_zero]
  | cons b l ih =>
    simp only [List.foldl_cons, List.map_cons, List.sum_cons]
    by_cases hb : P b
    · rw [if_pos hb, if_pos hb, ih, zero_add]
    · rw [if_neg hb, if_neg hb, ih, add_assoc]

theorem normal_eval : sphereUnit.getNormal ⟨0, 0, 1⟩ = ⟨0, 0, 1⟩ := by
  unfold Sphere.getNormal sphereUnit
  rw [Vec3.sub_mk]
  norm_num
  rw [normalize_eval 0 0 1 1 one_pos (by norm_num)]
  norm_num

theorem toLight_eval : ((⟨0, 0, 5⟩ : Vec3) - ⟨0, 0, 1⟩).normalize = ⟨0, 0, 1⟩ := by
  rw [Vec3.sub_mk]
  norm_num
  rw [normalize_eval 0 0 4 4 (by norm_num) (by norm_num)]
  norm_num

/-! ## The claims -/

/-- Claim C1 (amended): for every ray and sphere list, `Scene.intersect`
returns the hit with the minimum per-sphere intersection distance at least
`tMin` (each sphere tested with the default infinite upper bound), and it
returns `none` exactly when every sphere misses; but on an exact distance
tie the returned index is that of the sphere tested LAST in iteration
order (the later duplicate overwrites the running best because the loop
accepts `t <= tClosest`), not the first as claimed: every sphere after the
returned one hits strictly farther, while earlier ones may tie. -/
theorem scene_intersect_min_dist_last_tie (sc : Scene) (ray : Ray)
    (tMin : ℝ) :
    (sc.intersect ray tMin = none ↔
      ∀ j, j < sc.spheres.length →
        (sc.spheres.getD j dfltSphere).intersect ray tMin none = none) ∧
    ∀ t i, sc.intersect ray tMin = some (t, i) →
      i < sc.spheres.length ∧
      (sc.spheres.getD i dfltSphere).intersect ray tMin none = some t ∧
      (∀ j, j < sc.spheres.length → ∀ u,
        (sc.spheres.getD j dfltSphere).intersect ray tMin none = some u →
          t ≤ u) ∧
      (∀ j, i < j → j < sc.spheres.length → ∀ u,
        (sc.spheres.getD j dfltSphere).intersect ray tMin none = some u →
          t < u) :=
  ⟨scene_intersect_none_iff sc ray tMin,
    fun _ _ h => scene_intersect_some_spec h⟩

/-- Claim C1, counterexample to the stated tie-break: the same unit sphere
added twice is hit by the axial ray at exactly distance 4 by both copies,
yet `Scene.intersect` returns index 1 (the last copy), not index 0 (the
first-added copy) as the claim requires. -/
theorem scene_intersect_tie_counterexample :
    sphereUnit.intersect ⟨⟨0, 0, 5⟩, ⟨0, 0, -1⟩⟩ (1 / 1000) none = some 4 ∧
    sceneTie.spheres.getD 0 dfltSphere = sphereUnit ∧
    sceneTie.spheres.getD 1 dfltSphere = sphereUnit ∧
    sceneTie.intersect ⟨⟨0, 0, 5⟩, ⟨0, 0, -1⟩⟩ (1 / 1000) = some (4, 1) ∧
    sceneTie.intersect ⟨⟨0, 0, 5⟩, ⟨0, 0, -1⟩⟩ (1 / 1000) ≠ some (4, 0) := by
  refine ⟨sU_A_hit_inf, rfl, rfl, sceneTie_hit, ?_⟩
  rw [sceneTie_hit]
  simp

/-- Claim C1, witness: the amended theorem applied to the two-sphere tie
scene at the concrete axial ray. -/
theorem scene_intersect_min_dist_last_tie_witness :
    1 < sceneTie.spheres.length ∧
    (sceneTie.spheres.getD 1 dfltSphere).intersect
      ⟨⟨0, 0, 5⟩, ⟨0, 0, -1⟩⟩ (1 / 1000) none = some 4 := by
  have h := (scene_intersect_min_dist_last_tie sceneTie
    ⟨⟨0, 0, 5⟩, ⟨0, 0, -1⟩⟩ (1 / 1000)).2 4 1 sceneTie_hit
  exact ⟨h.1, h.2.1⟩

/-- Claim C2: `Scene.isInShadow` holds exactly when the closest scene
intersection along the shadow ray (with `tMin = 0.001`) lies strictly
closer than the light, equivalently exactly when some sphere intersects
the shadow ray strictly closer than the light distance; an occluder at or
beyond the light distance does not shadow. -/
theorem isInShadow_strictly_closer_iff (sc : Scene) (point lightPos : Vec3) :
    (sc.isInShadow point lightPos ↔
      ∃ t i, sc.intersect (mkRay point (lightPos - point)) (1 / 1000)
          = some (t, i) ∧
        t < (lightPos - point).length) ∧
    (sc.isInShadow point lightPos ↔
      ∃ j, j < sc.spheres.length ∧ ∃ u,
        (sc.spheres.getD j dfltSphere).intersect
          (mkRay point (lightPos - point)) (1 / 1000) none = some u ∧
        u < (lightPos - point).length) := by
  have h1 : sc.isInShadow point lightPos ↔
      ∃ t i, sc.intersect (mkRay point (lightPos - point)) (1 / 1000)
          = some (t, i) ∧ t < (lightPos - point).length := by
    unfold Scene.isInShadow
    cases hres : sc.intersect (mkRay point (lightPos - point)) (1 / 1000) with
    | none =>
      simp
    | some p =>
      obtain ⟨t, i⟩ := p
      dsimp only
      constructor
      · intro h
        exact ⟨t, i, rfl, h⟩
      · rintro ⟨u, j, he, hlt⟩
        injection he with hpair
        injection hpair with ht hi
        subst ht
        exact hlt
  refine ⟨h1, ?_⟩
  constructor
  · intro hsh
    obtain ⟨t, i, hres, hlt⟩ := h1.mp hsh
    obtain ⟨hi, hhit, _, _⟩ := scene_intersect_some_spec hres
    exact ⟨i, hi, t, hhit, hlt⟩
  · rintro ⟨j, hj, u, hu, hult⟩
    apply h1.mpr
    cases hres : sc.intersect (mkRay point (lightPos - point)) (1 / 1000) with
    | none =>
      rw [(scene_intersect_none_iff sc _ _).mp hres j hj] at hu
      exact absurd hu (by simp)
    | some p =>
      obtain ⟨t, i⟩ := p
      obtain ⟨hi, hhit, hmin, _⟩ := scene_intersect_some_spec hres
      exact ⟨t, i, rfl, lt_of_le_of_lt (hmin j hj u hu) hult⟩

/-- Claim C2, witness: a point at `(0,0,3)` with the light at `(0,0,-3)`
behind the unit sphere is in shadow (occluder at distance 2, light at
distance 6). -/
theorem isInShadow_strictly_closer_witness :
    sceneOne.isInShadow ⟨0, 0, 3⟩ ⟨0, 0, -3⟩ := by
  apply (isInShadow_strictly_closer_iff sceneOne ⟨0, 0, 3⟩ ⟨0, 0, -3⟩).1.mpr
  refine ⟨2, 0, ?_, ?_⟩
  · rw [mkRay_shadow2]
    exact sceneOne_hit2
  · have hsub : ((⟨0, 0, -3⟩ : Vec3) - ⟨0, 0, 3⟩) = (⟨0, 0, -6⟩ : Vec3) := by
      rw [Vec3.sub_mk]
      norm_num
    rw [hsub, length_eval 0 0 (-6) 6 (by norm_num) (by norm_num)]
    norm_num

/-- Claim C3: for a unit-direction ray, the quadratic coefficient `a` is
1; a negative discriminant is reported as a miss; otherwise `t0 ≤ t1` are
genuine roots of `|O + tD - C|² = r²` (`t0` taking the minus sign), and
the result is `t0` if it lies in `[tMin, tMax]`, else `t1` if it lies in
`[tMin, tMax]`, else a miss. -/
theorem sphere_intersect_root_selection (s : Sphere) (ray : Ray) (tMin : ℝ)
    (tMax : Option ℝ) (hD : ray.direction.length = 1) :
    s.qa ray = 1 ∧
    (s.disc ray < 0 → s.intersect ray tMin tMax = none) ∧
    (0 ≤ s.disc ray →
      s.t0 ray ≤ s.t1 ray ∧
      (ray.pointAt (s.t0 ray) - s.center).dot
          (ray.pointAt (s.t0 ray) - s.center) = s.radius * s.radius ∧
      (ray.pointAt (s.t1 ray) - s.center).dot
          (ray.pointAt (s.t1 ray) - s.center) = s.radius * s.radius ∧
      s.intersect ray tMin tMax =
        (if tMin ≤ s.t0 ray ∧ withinMax (s.t0 ray) tMax then some (s.t0 ray)
          else if tMin ≤ s.t1 ray ∧ withinMax (s.t1 ray) tMax then
            some (s.t1 ray)
          else none)) := by
  have hqa := qa_eq_one_of_unit hD s
  refine ⟨hqa, ?_, ?_⟩
  · intro hd
    unfold Sphere.intersect
    rw [if_pos hd]
  · intro hd
    obtain ⟨h0, h1⟩ := root_prop s ray hqa hd
    refine ⟨s.t0_le_t1 ray, h0, h1, ?_⟩
    unfold Sphere.intersect
    rw [if_neg (not_lt.mpr hd)]

/-- Claim C3, witness: the axial unit ray against the unit sphere has
`a = 1` and ordered roots. -/
theorem sphere_intersect_root_selection_witness :
    sphereUnit.qa ⟨⟨0, 0, 5⟩, ⟨0, 0, -1⟩⟩ = 1 ∧
    sphereUnit.t0 ⟨⟨0, 0, 5⟩, ⟨0, 0, -1⟩⟩
      ≤ sphereUnit.t1 ⟨⟨0, 0, 5⟩, ⟨0, 0, -1⟩⟩ := by
  have hD : (Ray.mk ⟨0, 0, 5⟩ ⟨0, 0, -1⟩).direction.length = 1 := by
    show Vec3.length ⟨0, 0, -1⟩ = 1
    exact length_eval 0 0 (-1) 1 (by norm_num) (by norm_num)
  have h := sphere_intersect_root_selection sphereUnit
    ⟨⟨0, 0, 5⟩, ⟨0, 0, -1⟩⟩ (1 / 1000) none hD
  refine ⟨h.1, (h.2.2 ?_).1⟩
  rw [sU_A_disc]
  norm_num

/-- Claim C4: on a hit, diffuse-mode shading is exactly
`ambient * materialColor` plus the sum over all lights of
`materialColor * light.color * (max 0 (normal · toLight) * intensity)`
with `toLight = normalize(lightPosition - hitPoint)`; a backfacing light
(negative dot product) contributes exactly the zero color, and no shadow
test gates any light. -/
theorem renderDiffuse_pixel_formula (camera : Camera) (scene : Scene)
    (x y width height : ℕ) (t : ℝ) (i : ℕ)
    (hhit : scene.intersect (camera.getRay x y width height) (1 / 1000)
      = some (t, i)) :
    (renderDiffusePixel camera scene x y width height
      = scene.ambientLight * (scene.spheres.getD i dfltSphere).material.color
        + (scene.lights.map (fun light =>
            (scene.spheres.getD i dfltSphere).material.color * light.color *
              (max 0 (((scene.spheres.getD i dfltSphere).getNormal
                    ((camera.getRay x y width height).pointAt t)).dot
                  ((light.position -
                    (camera.getRay x y width height).pointAt t).normalize)) *
                light.intensity))).sum) ∧
    ∀ light ∈ scene.lights,
      ((scene.spheres.getD i dfltSphere).getNormal
          ((camera.getRay x y width height).pointAt t)).dot
        ((light.position -
          (camera.getRay x y width height).pointAt t).normalize) < 0 →
      (scene.spheres.getD i dfltSphere).material.color * light.color *
        (max 0 (((scene.spheres.getD i dfltSphere).getNormal
              ((camera.getRay x y width height).pointAt t)).dot
            ((light.position -
              (camera.getRay x y width height).pointAt t).normalize)) *
          light.intensity) = 0 := by
  constructor
  · unfold renderDiffusePixel
    dsimp only
    rw [hhit]
    dsimp only
    exact foldl_add_sum _ _ _
  · intro light _ hneg
    rw [max_eq_left hneg.le, zero_mul, Vec3.smul_zero']

/-- Claim C4, witness: the center pixel of a 2×2 image over the one-light
red-sphere scene evaluates to `(0.1 + 0.8, 0, 0) = (0.9, 0, 0)`. -/
theorem renderDiffuse_pixel_formula_witness :
    renderDiffusePixel camW sceneOne 1 1 2 2 = ⟨9 / 10, 0, 0⟩ := by
  have hhit : sceneOne.intersect
      (camW.getRay ((1 : ℕ) : ℝ) ((1 : ℕ) : ℝ) 2 2) (1 / 1000)
        = some (4, 0) := by
    rw [Nat.cast_one, camW_ray]
    exact sceneOne_hit
  have h := (renderDiffuse_pixel_formula camW sceneOne 1 1 2 2 4 0 hhit).1
  rw [h, Nat.cast_one, camW_ray, pointAt_eval]
  rw [show sceneOne.spheres.getD 0 dfltSphere = sphereUnit from rfl]
  rw [show sceneOne.lights = [lightW] from rfl]
  rw [normal_eval]
  simp only [List.map_cons, List.map_nil, List.sum_cons, List.sum_nil]
  rw [show lightW.position = (⟨0, 0, 5⟩ : Vec3) from rfl,
    show lightW.color = (⟨1, 1, 1⟩ : Vec3) from rfl,
    show lightW.intensity = (4 / 5 : ℝ) from rfl,
    show sphereUnit.material.color = (⟨1, 0, 0⟩ : Vec3) from rfl,
    show sceneOne.ambientLight = (⟨1 / 10, 1 / 10, 1 / 10⟩ : Vec3) from rfl]
  rw [toLight_eval]
  rw [show Vec3.dot ⟨0, 0, 1⟩ ⟨0, 0, 1⟩ = 1 from by norm_num]
  rw [max_eq_right (by norm_num : (0 : ℝ) ≤ 1)]
  norm_num

/-- Claim C5: shadow-mode shading is diffuse-mode shading with each
light's term gated by `Scene.isInShadow`: on a hit the color is
`ambient * materialColor` plus the sum of the diffuse terms of exactly the
unshadowed lights; in particular, whenever no light is shadowed at the hit
point (and trivially on a miss), the two modes produce the same color. -/
theorem renderShadows_gated_equals_diffuse (camera : Camera) (scene : Scene)
    (x y width height : ℕ) :
    (∀ t i,
      scene.intersect (camera.getRay x y width height) (1 / 1000)
          = some (t, i) →
      renderWithShadowsPixel camera scene x y width height
        = scene.ambientLight *
            (scene.spheres.getD i dfltSphere).material.color
          + (scene.lights.map (fun light =>
              if scene.isInShadow
                  ((camera.getRay x y width height).pointAt t)
                  light.position then 0
              else
                (scene.spheres.getD i dfltSphere).material.color *
                  light.color *
                  (max 0 (((scene.spheres.getD i dfltSphere).getNormal
                        ((camera.getRay x y width height).pointAt t)).dot
                      ((light.position -
                        (camera.getRay x y width height).pointAt t).normalize))
                    * light.intensity))).sum) ∧
    ((∀ t i,
        scene.intersect (camera.getRay x y width height) (1 / 1000)
            = some (t, i) →
        ∀ light ∈ scene.lights,
          ¬scene.isInShadow ((camera.getRay x y width height).pointAt t)
            light.position) →
      renderWithShadowsPixel camera scene x y width height
        = renderDiffusePixel camera scene x y width height) := by
  constructor
  · intro t i hres
    unfold renderWithShadowsPixel
    dsimp only
    rw [hres]
    dsimp only
    exact foldl_if_add _ _ _ _
  · intro hns
    unfold renderWithShadowsPixel renderDiffusePixel
    dsimp only
    cases hres : scene.intersect (camera.getRay x y width height) (1 / 1000) with
    | none => rfl
    | some p =>
      obtain ⟨t, i⟩ := p
      dsimp only
      apply foldl_congr_on
      intro light hl acc
      rw [if_neg (hns t i hres light hl)]

/-- Claim C5, witness: over the one-light scene with clear line of sight
from the hit point, shadow mode and diffuse mode agree at the center
pixel. -/
theorem renderShadows_gated_equals_diffuse_witness :
    renderWithShadowsPixel camW sceneOne 1 1 2 2
      = renderDiffusePixel camW sceneOne 1 1 2 2 := by
  apply (renderShadows_gated_equals_diffuse camW sceneOne 1 1 2 2).2
  intro t i h light hl
  rw [Nat.cast_one, camW_ray] at h ⊢
  rw [sceneOne_hit] at h
  injection h with hpair
  injection hpair with ht hi
  subst ht
  have hlight : light = lightW := by
    have hsl : sceneOne.lights = [lightW] := rfl
    rw [hsl] at hl
    simpa using hl
  subst hlight
  rw [pointAt_eval]
  rw [show lightW.position = (⟨0, 0, 5⟩ : Vec3) from rfl]
  exact notInShadow1

/-- Claim C6: `Camera.getRay` maps the pixel to NDC coordinates
`ndcX = (2u/width - 1) * aspect * scale` and
`ndcY = (1 - 2v/height) * scale` with `scale = tan(fov/2)` (degrees
converted to radians) and `aspect = width/height`, and returns the ray
with origin the camera position and direction
`normalize(forward + right*ndcX + trueUp*ndcY)` over the derived basis
`forward = normalize(lookAt - position)`,
`right = normalize(forward × up)`, `trueUp = right × forward`. -/
theorem getRay_ndc_basis_formula (cam : Camera) (u v : ℝ)
    (width height : ℕ) :
    cam.getRay u v width height =
      { origin := cam.position,
        direction :=
          Vec3.normalize
            ((cam.lookAt - cam.position).normalize
              + ((cam.lookAt - cam.position).normalize.cross cam.up).normalize
                * ((2 * u / (width : ℝ) - 1) * ((width : ℝ) / (height : ℝ)) *
                    Real.tan (cam.fov / 2 * (Real.pi / 180)))
              + (((cam.lookAt - cam.position).normalize.cross
                    cam.up).normalize.cross
                  (cam.lookAt - cam.position).normalize)
                * ((1 - 2 * v / (height : ℝ)) *
                    Real.tan (cam.fov / 2 * (Real.pi / 180)))) } := by
  unfold Camera.getRay mkRay
  dsimp only
  rw [Vec3.normalize_idem]
  have htan : cam.fov * (1 / 2) * Real.pi / 180
      = cam.fov / 2 * (Real.pi / 180) := by ring
  rw [htan]
  rfl

/-- Claim C7: `normalize` is total: a zero-length vector normalizes to the
zero vector (the dividing branch is taken only for strictly positive
length), and any nonzero vector normalizes to itself divided by its
Euclidean length. -/
theorem normalize_total_spec :
    (∀ v : Vec3, v.length = 0 → v.normalize = ⟨0, 0, 0⟩) ∧
    (∀ v : Vec3, v ≠ ⟨0, 0, 0⟩ → v.normalize = v / v.length) := by
  constructor
  · intro v h
    rw [Vec3.normalize, if_neg]
    rw [h]
    exact lt_irrefl 0
  · intro v h
    rw [Vec3.normalize, if_pos (Vec3.length_pos_of_ne_zero h)]

/-- Claim C7, witness: the zero vector and `(3,4,0)`. -/
theorem normalize_total_spec_witness :
    Vec3.normalize ⟨0, 0, 0⟩ = ⟨0, 0, 0⟩ ∧
    Vec3.normalize ⟨3, 4, 0⟩ = ⟨3 / 5, 4 / 5, 0⟩ := by
  constructor
  · exact normalize_total_spec.1 ⟨0, 0, 0⟩
      (length_eval 0 0 0 0 (by norm_num) (by norm_num))
  · rw [normalize_total_spec.2 ⟨3, 4, 0⟩ (by
      intro hc
      injection hc with h1 h2 h3
      norm_num at h1)]
    rw [length_eval 3 4 0 5 (by norm_num) (by norm_num)]
    norm_num

/-- Claim C8: a constructed ray stores exactly the normalization of the
raw direction: unit length whenever the input is nonzero, the zero vector
for zero input; the origin is stored unchanged (rays are immutable values
in this model). -/
theorem ray_constructor_normalizes (o d : Vec3) :
    (mkRay o d).origin = o ∧
    (mkRay o d).direction = d.normalize ∧
    (d ≠ ⟨0, 0, 0⟩ → (mkRay o d).direction.length = 1) ∧
    (d = ⟨0, 0, 0⟩ → (mkRay o d).direction = ⟨0, 0, 0⟩) := by
  refine ⟨rfl, rfl, ?_, ?_⟩
  · intro h
    show d.normalize.length = 1
    exact Vec3.length_normalize (Vec3.length_pos_of_ne_zero h)
  · intro h
    show d.normalize = ⟨0, 0, 0⟩
    subst h
    rw [Vec3.normalize,
      if_neg (by rw [Vec3.length_mk]; norm_num [Real.sqrt_zero])]

/-- Claim C8, witness: a non-unit input direction and the zero input. -/
theorem ray_constructor_normalizes_witness :
    (mkRay ⟨0, 0, 0⟩ ⟨0, 0, 3⟩).direction.length = 1 ∧
    (mkRay ⟨1, 2, 3⟩ ⟨0, 0, 0⟩).direction = ⟨0, 0, 0⟩ :=
  ⟨(ray_constructor_normalizes ⟨0, 0, 0⟩ ⟨0, 0, 3⟩).2.2.1 (by
      intro hc
      injection hc with h1 h2 h3
      norm_num at h3),
    (ray_constructor_normalizes ⟨1, 2, 3⟩ ⟨0, 0, 0⟩).2.2.2 rfl⟩

/-- Claim C9: in all four render modes a pixel whose camera ray hits
nothing — in particular every pixel of an empty scene — is written the
same fixed sky-blue background color `(0.5, 0.7, 1.0)`. -/
theorem render_miss_background (camera : Camera) (scene : Scene)
    (x y width height : ℕ) :
    (scene.spheres = [] →
      scene.intersect (camera.getRay x y width height) (1 / 1000) = none) ∧
    (scene.intersect (camera.getRay x y width height) (1 / 1000) = none →
      renderDistancePixel camera scene x y width height = backgroundColor ∧
      renderMaterialsPixel camera scene x y width height = backgroundColor ∧
      renderDiffusePixel camera scene x y width height = backgroundColor ∧
      renderWithShadowsPixel camera scene x y width height
        = backgroundColor) := by
  constructor
  · intro hempty
    unfold Scene.intersect
    rw [hempty]
    rfl
  · intro hmiss
    refine ⟨?_, ?_, ?_, ?_⟩
    · unfold renderDistancePixel
      dsimp only
      rw [hmiss]
    · unfold renderMaterialsPixel
      dsimp only
      rw [hmiss]
    · unfold renderDiffusePixel
      dsimp only
      rw [hmiss]
    · unfold renderWithShadowsPixel
      dsimp only
      rw [hmiss]

/-- Claim C9, witness: the empty scene at a concrete pixel, all four
modes. -/
theorem render_miss_background_witness :
    renderDistancePixel camW sceneEmpty 0 0 2 2 = backgroundColor ∧
    renderMaterialsPixel camW sceneEmpty 0 0 2 2 = backgroundColor ∧
    renderDiffusePixel camW sceneEmpty 0 0 2 2 = backgroundColor ∧
    renderWithShadowsPixel camW sceneEmpty 0 0 2 2 = backgroundColor := by
  have h := render_miss_background camW sceneEmpty 0 0 2 2
  exact h.2 (h.1 rfl)

/-- Claim C10: whenever `Scene.intersect` reports a hit, the returned
index is a valid position in the sphere list and the distance is at least
`tMin` (so the render modes' subsequent indexing is in bounds); a miss is
the `none` value, the model of the C++ sentinel state
`(tClosest = +infinity, sphereIndex = -1)`. -/
theorem scene_intersect_index_safe (sc : Scene) (ray : Ray) (tMin t : ℝ)
    (i : ℕ) (h : sc.intersect ray tMin = some (t, i)) :
    i < sc.spheres.length ∧ tMin ≤ t := by
  obtain ⟨hi, hhit, _, _⟩ := scene_intersect_some_spec h
  exact ⟨hi, (Sphere.intersect_some_bounds hhit).1⟩

/-- Claim C10, witness: the one-sphere scene hit at distance 4. -/
theorem scene_intersect_index_safe_witness :
    (0 : ℕ) < sceneOne.spheres.length ∧ (1 / 1000 : ℝ) ≤ 4 :=
  scene_intersect_index_safe sceneOne ⟨⟨0, 0, 5⟩, ⟨0, 0, -1⟩⟩ (1 / 1000) 4 0
    sceneOne_hit
